import Mathlib

/-!
# Verification of the OOCExperiments plotting utilities

A shallow embedding of the data-transformation logic of
`src/eventlog/plot_event_log.py` and `src/visualizer.py`, together with
theorems settling the specification's claims about them.

Modelling conventions:
* Python's unbounded `int` is `ℤ` (or `ℕ` for list indices).
* Python `float` values arising from decimal literals are modelled exactly as
  `ℚ`; the IEEE `nan` / `inf` specials are distinguished constructors of
  `PyFloat`.  No claim under verification depends on rounding.
* Fallible code returns `Except String`; printed warnings are returned as a
  `List String` alongside the result.
* CSV files are modelled by `CsvFile`: absent, byte-empty (no header line,
  `DictReader.fieldnames is None`), or a header plus data rows.
* Character-class tests (`\s`, `str.strip`, `str.lower`, digits) are modelled
  over the ASCII range, which is the range exercised by the data formats.
-/

/-- A compute/disk event-log row, from `TimeEntry = Tuple[int, str, int, int]`
(`thread, caller, start_ns, end_ns`) in `plot_event_log.py`. -/
structure TimeEntry where
  thread : ℤ
  caller : String
  startNs : ℤ
  endNs : ℤ
deriving DecidableEq, Repr

/-- A cache-size sample, from `CacheSample = Tuple[int, int, int]`
(`timestamp_ns, scheduled_eviction_size, cache_size`). -/
structure CacheSample where
  ts : ℤ
  evict : ℤ
  size : ℤ
deriving DecidableEq, Repr

/-- A chart segment `(start_ns, duration_ns, label)` as built by
`build_segments`. -/
abbrev Segment := ℤ × ℤ × String

/-- The sentinel label the code attaches to synthetic idle segments
(spelled `"__idle__"` in `build_segments`; the spec calls it "idle"). -/
def idleLabel : String := "__idle__"

/-- The `seen`-set loop of `ordered_unique` in `visualizer.py`: `seen` holds
the values already emitted. -/
def ordered_unique_go {α} [DecidableEq α] (seen : List α) : List α → List α
  | [] => []
  | v :: rest =>
    if v ∈ seen then ordered_unique_go seen rest
    else v :: ordered_unique_go (v :: seen) rest

/-- First-occurrence deduplication, as `ordered_unique` of `visualizer.py`
(keeps the first occurrence of each value, in input order). -/
def ordered_unique {α} [DecidableEq α] (values : List α) : List α :=
  ordered_unique_go [] values

/-- The comparison used by `thread_entries.sort(key=lambda e: e[2])`. -/
def startLe (a b : TimeEntry) : Prop := a.startNs ≤ b.startNs

instance : DecidableRel startLe := fun a b => by unfold startLe; infer_instance

/-- The thread ids in order of first appearance — the key order of the
`by_thread` defaultdict in `build_segments`. -/
def threadIds (entries : List TimeEntry) : List ℤ :=
  ordered_unique (entries.map (·.thread))

/-- One thread's entries: the `by_thread[t]` list after the stable
`sort(key=lambda e: e[2])`.  `List.insertionSort` is a stable sort, like
Python's sort, so both produce the unique start-sorted permutation whose
ties keep input order. -/
def threadEntries (entries : List TimeEntry) (t : ℤ) : List TimeEntry :=
  (entries.filter (fun e => e.thread = t)).insertionSort startLe

/-- The per-entry loop body of `build_segments` for one thread's sorted
entries: emit a caller segment for each entry with positive duration
(`continue` otherwise, which also skips the idle check), and, when
`include_idle`, an idle segment up to the next entry's start when that gap
is positive.  No idle segment is attempted after the last entry. -/
def segLoop (include_idle : Bool) : List TimeEntry → List Segment
  | [] => []
  | e :: rest =>
    let d := e.endNs - e.startNs
    if d ≤ 0 then segLoop include_idle rest
    else
      (e.startNs, d, e.caller) ::
        (match rest with
         | [] => segLoop include_idle rest
         | e2 :: _ =>
           if include_idle then
             let gap := e2.startNs - e.endNs
             if 0 < gap then (e.endNs, gap, idleLabel) :: segLoop include_idle rest
             else segLoop include_idle rest
           else segLoop include_idle rest)

/-- `build_segments(entries, include_idle)` from `plot_event_log.py`,
returning (per-thread segment lists, global min start, global max end).
The `segments` defaultdict holds exactly the threads that received at
least one segment, in first-appearance order — hence the `filter`.
`min()`/`max()` over an empty generator raise in Python, modelled as
`none`.  (The matplotlib color map the function also returns is pure
rendering and is not modelled.) -/
def build_segments (entries : List TimeEntry) (include_idle : Bool) :
    Option (List (ℤ × List Segment) × ℤ × ℤ) :=
  match entries with
  | [] => none
  | e :: es =>
    let segs := ((threadIds (e :: es)).map
        (fun t => (t, segLoop include_idle (threadEntries (e :: es) t)))).filter
      (fun p => !p.2.isEmpty)
    let min_start := (es.map (·.startNs)).foldl min e.startNs
    let max_end := (es.map (·.endNs)).foldl max e.endNs
    some (segs, min_start, max_end)

/-- `find_bounds` from `plot_event_log.py`. -/
def find_bounds (entries : List TimeEntry) : Option (ℤ × ℤ) :=
  match entries with
  | [] => none
  | e :: es =>
    some ((es.map (·.startNs)).foldl min e.startNs, (es.map (·.endNs)).foldl max e.endNs)

/-- `find_cache_bounds` from `plot_event_log.py`. -/
def find_cache_bounds (samples : List CacheSample) : Option (ℤ × ℤ) :=
  match samples with
  | [] => none
  | s :: ss =>
    some ((ss.map (·.ts)).foldl min s.ts, (ss.map (·.ts)).foldl max s.ts)

/-- The global `min_start`/`max_end` computation of `main` in
`plot_event_log.py`: seed the bounds list with the compute bounds from
`build_segments`, extend with the truthy optional bounds, and take the
component-wise min/max. -/
def main_bounds (compute dr dw : List TimeEntry) (cache : List CacheSample)
    (include_idle : Bool) : Option (ℤ × ℤ) :=
  match build_segments compute include_idle with
  | none => none
  | some (_, cmin, cmax) =>
    let extra := [find_bounds dr, find_bounds dw, find_cache_bounds cache].filterMap id
    some (extra.foldl (fun m b => min m b.1) cmin, extra.foldl (fun m b => max m b.2) cmax)

/-- `IdleGapAt l s d` holds when some two consecutive entries `e, e2` of `l`
have a strictly positive gap `d = e2.startNs - e.endNs` starting at
`s = e.endNs`, and the earlier entry is well formed (`0 < duration`).
This characterizes exactly the idle segments `build_segments` emits. -/
inductive IdleGapAt : List TimeEntry → ℤ → ℤ → Prop
  | head (e e2 : TimeEntry) (rest : List TimeEntry)
      (hd : 0 < e.endNs - e.startNs) (hg : 0 < e2.startNs - e.endNs) :
      IdleGapAt (e :: e2 :: rest) e.endNs (e2.startNs - e.endNs)
  | tail (e : TimeEntry) (l : List TimeEntry) (s d : ℤ) :
      IdleGapAt l s d → IdleGapAt (e :: l) s d

lemma not_idleGapAt_nil {s d : ℤ} : ¬ IdleGapAt [] s d := by
  intro h; cases h

lemma not_idleGapAt_singleton {e : TimeEntry} {s d : ℤ} : ¬ IdleGapAt [e] s d := by
  intro h
  cases h with
  | tail _ _ _ _ h' => exact not_idleGapAt_nil h'

lemma segLoop_cons_bad {ii : Bool} {e : TimeEntry} {rest : List TimeEntry}
    (h : e.endNs - e.startNs ≤ 0) : segLoop ii (e :: rest) = segLoop ii rest := by
  simp only [segLoop]
  rw [if_pos h]

lemma segLoop_singleton {ii : Bool} {e : TimeEntry} (h : ¬ e.endNs - e.startNs ≤ 0) :
    segLoop ii [e] = [(e.startNs, e.endNs - e.startNs, e.caller)] := by
  simp only [segLoop]
  rw [if_neg h]

lemma segLoop_cons_idle {e e2 : TimeEntry} {rest' : List TimeEntry}
    (h : ¬ e.endNs - e.startNs ≤ 0) (hg : 0 < e2.startNs - e.endNs) :
    segLoop true (e :: e2 :: rest') =
      (e.startNs, e.endNs - e.startNs, e.caller) ::
        (e.endNs, e2.startNs - e.endNs, idleLabel) :: segLoop true (e2 :: rest') := by
  simp only [segLoop]
  rw [if_neg h, if_true, if_pos hg]

lemma segLoop_cons_noidle {e e2 : TimeEntry} {rest' : List TimeEntry}
    (h : ¬ e.endNs - e.startNs ≤ 0) (hg : ¬ 0 < e2.startNs - e.endNs) :
    segLoop true (e :: e2 :: rest') =
      (e.startNs, e.endNs - e.startNs, e.caller) :: segLoop true (e2 :: rest') := by
  simp only [segLoop]
  rw [if_neg h, if_true, if_neg hg]

lemma segLoop_cons_false {e e2 : TimeEntry} {rest' : List TimeEntry}
    (h : ¬ e.endNs - e.startNs ≤ 0) :
    segLoop false (e :: e2 :: rest') =
      (e.startNs, e.endNs - e.startNs, e.caller) :: segLoop false (e2 :: rest') := by
  simp only [segLoop]
  rw [if_neg h, if_neg (by simp)]

lemma idle_mem_segLoop {l : List TimeEntry} (hcal : ∀ e ∈ l, e.caller ≠ idleLabel)
    {s d : ℤ} :
    (s, d, idleLabel) ∈ segLoop true l ↔ IdleGapAt l s d := by
  induction l with
  | nil => simp [segLoop, not_idleGapAt_nil]
  | cons e rest ih =>
    have hcal_rest : ∀ e' ∈ rest, e'.caller ≠ idleLabel := fun e' h' => hcal e' (by simp [h'])
    have hce : e.caller ≠ idleLabel := hcal e (by simp)
    have ihr := ih hcal_rest
    by_cases hd : e.endNs - e.startNs ≤ 0
    · rw [segLoop_cons_bad hd, ihr]
      constructor
      · exact IdleGapAt.tail e rest s d
      · intro h
        cases h with
        | head e e2 r hd' hg => omega
        | tail _ _ _ _ h' => exact h'
    · cases rest with
      | nil =>
        rw [segLoop_singleton hd]
        simp only [List.mem_singleton, Prod.mk.injEq]
        constructor
        · rintro ⟨-, -, hl⟩; exact absurd hl.symm hce
        · intro h; exact absurd h not_idleGapAt_singleton
      | cons e2 rest' =>
        by_cases hg : 0 < e2.startNs - e.endNs
        · rw [segLoop_cons_idle hd hg]
          simp only [List.mem_cons, Prod.mk.injEq]
          constructor
          · rintro (⟨-, -, hl⟩ | ⟨hs, hdd, -⟩ | h)
            · exact absurd hl.symm hce
            · rw [hs, hdd]; exact IdleGapAt.head e e2 rest' (by omega) hg
            · exact IdleGapAt.tail _ _ _ _ (ihr.mp h)
          · intro h
            cases h with
            | head _ _ _ _ _ => exact Or.inr (Or.inl ⟨rfl, rfl, trivial⟩)
            | tail _ _ _ _ h' => exact Or.inr (Or.inr (ihr.mpr h'))
        · rw [segLoop_cons_noidle hd hg]
          simp only [List.mem_cons, Prod.mk.injEq]
          constructor
          · rintro (⟨-, -, hl⟩ | h)
            · exact absurd hl.symm hce
            · exact IdleGapAt.tail _ _ _ _ (ihr.mp h)
          · intro h
            cases h with
            | head _ _ _ _ hg' => omega
            | tail _ _ _ _ h' => exact Or.inr (ihr.mpr h')

lemma mem_build_segments {entries : List TimeEntry} {ii : Bool}
    {out : List (ℤ × List Segment) × ℤ × ℤ}
    (h : build_segments entries ii = some out) {t : ℤ} {segs : List Segment}
    (hm : (t, segs) ∈ out.1) : segs = segLoop ii (threadEntries entries t) := by
  cases entries with
  | nil => simp [build_segments] at h
  | cons e es =>
    simp only [build_segments, Option.some.injEq] at h
    subst h
    obtain ⟨hmem, -⟩ := List.mem_filter.mp hm
    obtain ⟨t', -, ht'⟩ := List.mem_map.mp hmem
    cases ht'
    rfl

lemma segLoop_pos_duration {ii : Bool} {l : List TimeEntry} :
    ∀ x ∈ segLoop ii l, 0 < x.2.1 := by
  induction l with
  | nil => simp [segLoop]
  | cons e rest ih =>
    by_cases hd : e.endNs - e.startNs ≤ 0
    · rw [segLoop_cons_bad hd]; exact ih
    · cases rest with
      | nil =>
        rw [segLoop_singleton hd]
        intro x hx
        rw [List.mem_singleton] at hx
        subst hx; simpa using by omega
      | cons e2 rest' =>
        cases ii with
        | false =>
          rw [segLoop_cons_false hd]
          intro x hx
          rcases List.mem_cons.mp hx with rfl | hx'
          · simpa using by omega
          · exact ih x hx'
        | true =>
          by_cases hg : 0 < e2.startNs - e.endNs
          · rw [segLoop_cons_idle hd hg]
            intro x hx
            rcases List.mem_cons.mp hx with rfl | hx'
            · simpa using by omega
            · rcases List.mem_cons.mp hx' with rfl | hx''
              · simpa using hg
              · exact ih x hx''
          · rw [segLoop_cons_noidle hd hg]
            intro x hx
            rcases List.mem_cons.mp hx with rfl | hx'
            · simpa using by omega
            · exact ih x hx'

lemma segLoop_start_lb {ii : Bool} {l : List TimeEntry} {lb : ℤ}
    (h : ∀ e ∈ l, lb ≤ e.startNs) :
    ∀ x ∈ segLoop ii l, lb ≤ x.1 := by
  induction l with
  | nil => simp [segLoop]
  | cons e rest ih =>
    have hrest : ∀ e' ∈ rest, lb ≤ e'.startNs := fun e' h' => h e' (by simp [h'])
    have he : lb ≤ e.startNs := h e (by simp)
    by_cases hd : e.endNs - e.startNs ≤ 0
    · rw [segLoop_cons_bad hd]; exact ih hrest
    · cases rest with
      | nil =>
        rw [segLoop_singleton hd]
        intro x hx
        rw [List.mem_singleton] at hx
        subst hx; simpa using he
      | cons e2 rest' =>
        cases ii with
        | false =>
          rw [segLoop_cons_false hd]
          intro x hx
          rcases List.mem_cons.mp hx with rfl | hx'
          · simpa using he
          · exact ih hrest x hx'
        | true =>
          by_cases hg : 0 < e2.startNs - e.endNs
          · rw [segLoop_cons_idle hd hg]
            intro x hx
            rcases List.mem_cons.mp hx with rfl | hx'
            · simpa using he
            · rcases List.mem_cons.mp hx' with rfl | hx''
              · show lb ≤ e.endNs; omega
              · exact ih hrest x hx''
          · rw [segLoop_cons_noidle hd hg]
            intro x hx
            rcases List.mem_cons.mp hx with rfl | hx'
            · simpa using he
            · exact ih hrest x hx'

lemma segLoop_pairwise {ii : Bool} {l : List TimeEntry}
    (hs : l.Pairwise (fun a b => a.startNs ≤ b.startNs)) :
    (segLoop ii l).Pairwise (fun a b => a.1 ≤ b.1) := by
  induction l with
  | nil => simp [segLoop]
  | cons e rest ih =>
    rw [List.pairwise_cons] at hs
    obtain ⟨hle, hrest⟩ := hs
    by_cases hd : e.endNs - e.startNs ≤ 0
    · rw [segLoop_cons_bad hd]; exact ih hrest
    · cases rest with
      | nil =>
        rw [segLoop_singleton hd]
        simp
      | cons e2 rest' =>
        have hlb2 : ∀ e' ∈ e2 :: rest', e2.startNs ≤ e'.startNs := by
          intro e' h'
          rcases List.mem_cons.mp h' with rfl | h''
          · exact le_refl _
          · exact (List.pairwise_cons.mp hrest).1 e' h''
        have hhead : ∀ x ∈ segLoop ii (e2 :: rest'), e.startNs ≤ x.1 := by
          intro x hx
          exact le_trans (hle e2 (by simp)) (segLoop_start_lb hlb2 x hx)
        cases ii with
        | false =>
          rw [segLoop_cons_false hd]
          exact List.pairwise_cons.mpr ⟨hhead, ih hrest⟩
        | true =>
          by_cases hg : 0 < e2.startNs - e.endNs
          · rw [segLoop_cons_idle hd hg]
            refine List.pairwise_cons.mpr ⟨?_, List.pairwise_cons.mpr ⟨?_, ih hrest⟩⟩
            · intro x hx
              rcases List.mem_cons.mp hx with rfl | hx'
              · show e.startNs ≤ e.endNs; omega
              · exact hhead x hx'
            · intro x hx
              have := segLoop_start_lb hlb2 x hx
              show e.endNs ≤ x.1
              omega
          · rw [segLoop_cons_noidle hd hg]
            exact List.pairwise_cons.mpr ⟨hhead, ih hrest⟩

lemma segLoop_origin {ii : Bool} {l : List TimeEntry} :
    ∀ x ∈ segLoop ii l,
      (∃ e ∈ l, 0 < e.endNs - e.startNs ∧ x = (e.startNs, e.endNs - e.startNs, e.caller))
        ∨ (x.2.2 = idleLabel ∧ IdleGapAt l x.1 x.2.1) := by
  induction l with
  | nil => simp [segLoop]
  | cons e rest ih =>
    have lift : ∀ x,
        ((∃ e' ∈ rest, 0 < e'.endNs - e'.startNs ∧ x = (e'.startNs, e'.endNs - e'.startNs, e'.caller))
          ∨ (x.2.2 = idleLabel ∧ IdleGapAt rest x.1 x.2.1)) →
        ((∃ e' ∈ e :: rest, 0 < e'.endNs - e'.startNs ∧ x = (e'.startNs, e'.endNs - e'.startNs, e'.caller))
          ∨ (x.2.2 = idleLabel ∧ IdleGapAt (e :: rest) x.1 x.2.1)) := by
      rintro x (⟨e', he', hpos, hx⟩ | ⟨hlab, hgap⟩)
      · exact Or.inl ⟨e', by simp [he'], hpos, hx⟩
      · exact Or.inr ⟨hlab, IdleGapAt.tail _ _ _ _ hgap⟩
    by_cases hd : e.endNs - e.startNs ≤ 0
    · rw [segLoop_cons_bad hd]
      intro x hx
      exact lift x (ih x hx)
    · cases rest with
      | nil =>
        rw [segLoop_singleton hd]
        intro x hx
        rw [List.mem_singleton] at hx
        exact Or.inl ⟨e, by simp, by omega, hx⟩
      | cons e2 rest' =>
        cases ii with
        | false =>
          rw [segLoop_cons_false hd]
          intro x hx
          rcases List.mem_cons.mp hx with rfl | hx'
          · exact Or.inl ⟨e, by simp, by omega, rfl⟩
          · exact lift x (ih x hx')
        | true =>
          by_cases hg : 0 < e2.startNs - e.endNs
          · rw [segLoop_cons_idle hd hg]
            intro x hx
            rcases List.mem_cons.mp hx with rfl | hx'
            · exact Or.inl ⟨e, by simp, by omega, rfl⟩
            · rcases List.mem_cons.mp hx' with rfl | hx''
              · exact Or.inr ⟨rfl, IdleGapAt.head e e2 rest' (by omega) hg⟩
              · exact lift x (ih x hx'')
          · rw [segLoop_cons_noidle hd hg]
            intro x hx
            rcases List.mem_cons.mp hx with rfl | hx'
            · exact Or.inl ⟨e, by simp, by omega, rfl⟩
            · exact lift x (ih x hx')

lemma threadEntries_sorted (entries : List TimeEntry) (t : ℤ) :
    (threadEntries entries t).Pairwise (fun a b => a.startNs ≤ b.startNs) := by
  haveI : IsTotal TimeEntry startLe := ⟨fun a b => le_total a.startNs b.startNs⟩
  haveI : IsTrans TimeEntry startLe := ⟨fun _ _ _ h1 h2 => le_trans h1 h2⟩
  exact List.sorted_insertionSort startLe (entries.filter (fun e => e.thread = t))

lemma mem_of_mem_threadEntries {entries : List TimeEntry} {t : ℤ} {e : TimeEntry}
    (h : e ∈ threadEntries entries t) : e ∈ entries := by
  unfold threadEntries at h
  rw [(List.perm_insertionSort startLe _).mem_iff] at h
  exact (List.mem_filter.mp h).1

/-- C2 counterexample: for entries `(0,"A",100,100)` and `(0,"B",300,400)` —
two consecutive intervals of thread 0 in start-sorted order with the strictly
positive gap `300 - 100 = 200` — `build_segments` with idle rendering emits
no idle segment at all, because the earlier entry has non-positive duration
and its `continue` skips the idle-gap check.  This refutes the claim's
"exactly when". -/
theorem C2_counterexample :
    build_segments [⟨0, "A", 100, 100⟩, ⟨0, "B", 300, 400⟩] true
        = some ([(0, [(300, 100, "B")])], 100, 400)
    ∧ threadEntries [⟨0, "A", 100, 100⟩, ⟨0, "B", 300, 400⟩] 0
        = [⟨0, "A", 100, 100⟩, ⟨0, "B", 300, 400⟩]
    ∧ (0 : ℤ) < 300 - 100
    ∧ ∀ seg ∈ [((300 : ℤ), (100 : ℤ), "B")], seg.2.2 ≠ idleLabel := by
  refine ⟨rfl, rfl, by decide, by decide⟩

/-- C2 (amended): with idle rendering enabled, and provided no caller uses the
reserved sentinel label, `build_segments` emits an idle segment `(s, d, idle)`
in a thread's segment list exactly when two consecutive entries of that thread
(in start-sorted order) have a strictly positive gap **and the earlier entry
has strictly positive duration**, with `s` the earlier entry's end and `d` the
gap; in particular no idle segment is emitted after a thread's last entry.
The claim's example `(0,"A",100,200), (0,"B",300,400)` yields exactly
`[(100,100,"A"), (200,100,idle), (300,100,"B")]` (the code spells the
sentinel `"__idle__"`). -/
theorem C2_idle_gap_characterization :
    (∀ entries : List TimeEntry, (∀ e ∈ entries, e.caller ≠ idleLabel) →
      ∀ out, build_segments entries true = some out →
      ∀ t segs, (t, segs) ∈ out.1 →
      ∀ s d : ℤ, ((s, d, idleLabel) ∈ segs ↔ IdleGapAt (threadEntries entries t) s d))
    ∧ build_segments [⟨0, "A", 100, 200⟩, ⟨0, "B", 300, 400⟩] true =
        some ([(0, [((100 : ℤ), (100 : ℤ), "A"), (200, 100, idleLabel), (300, 100, "B")])],
          100, 400) := by
  constructor
  · intro entries hcal out hout t segs hmem s d
    rw [mem_build_segments hout hmem]
    exact idle_mem_segLoop (fun e he => hcal e (mem_of_mem_threadEntries he))
  · rfl

/-- Witness for C2: instantiating the characterization at the example input
shows the gap `(200, 100)` of thread 0 is a genuine idle gap. -/
theorem C2_idle_gap_characterization_witness :
    IdleGapAt (threadEntries [⟨0, "A", 100, 200⟩, ⟨0, "B", 300, 400⟩] 0) 200 100 :=
  (C2_idle_gap_characterization.1 [⟨0, "A", 100, 200⟩, ⟨0, "B", 300, 400⟩]
      (by decide) _ rfl 0
      [((100 : ℤ), (100 : ℤ), "A"), (200, 100, idleLabel), (300, 100, "B")]
      (by decide) 200 100).mp (by decide)

/-- C3: for every non-empty entry sequence, each per-thread segment list
returned by `build_segments` is sorted by segment start (the thread's entries
being processed in stable start-sorted order), every segment has strictly
positive duration, and every segment is either the image of a positive-duration
entry of that thread (so non-positive-duration entries produce no segment) or
an idle-gap segment. -/
theorem C3_segments_sorted_positive :
    ∀ entries : List TimeEntry, entries ≠ [] → ∀ ii out,
      build_segments entries ii = some out →
      ∀ t segs, (t, segs) ∈ out.1 →
        segs.Pairwise (fun a b => a.1 ≤ b.1)
        ∧ (∀ x ∈ segs, 0 < x.2.1)
        ∧ (∀ x ∈ segs,
            (∃ e ∈ threadEntries entries t,
                0 < e.endNs - e.startNs ∧ x = (e.startNs, e.endNs - e.startNs, e.caller))
              ∨ (x.2.2 = idleLabel ∧ IdleGapAt (threadEntries entries t) x.1 x.2.1)) := by
  intro entries hne ii out hout t segs hmem
  rw [mem_build_segments hout hmem]
  exact ⟨segLoop_pairwise (threadEntries_sorted entries t), segLoop_pos_duration,
    segLoop_origin⟩

/-- Witness for C3 at the example input. -/
theorem C3_segments_sorted_positive_witness :
    ([((100 : ℤ), (100 : ℤ), "A"), (200, 100, idleLabel), (300, 100, "B")] :
        List Segment).Pairwise (fun a b => a.1 ≤ b.1) :=
  (C3_segments_sorted_positive [⟨0, "A", 100, 200⟩, ⟨0, "B", 300, 400⟩]
      (by decide) true _ rfl 0
      [((100 : ℤ), (100 : ℤ), "A"), (200, 100, idleLabel), (300, 100, "B")]
      (by decide)).1

lemma foldl_min_min (l : List ℤ) : ∀ a b : ℤ, List.foldl min (min a b) l = min a (List.foldl min b l) := by
  induction l with
  | nil => intro a b; rfl
  | cons c l ih =>
    intro a b
    show List.foldl min (min (min a b) c) l = min a (List.foldl min (min b c) l)
    rw [min_assoc, ih]

lemma foldl_max_max (l : List ℤ) : ∀ a b : ℤ, List.foldl max (max a b) l = max a (List.foldl max b l) := by
  induction l with
  | nil => intro a b; rfl
  | cons c l ih =>
    intro a b
    show List.foldl max (max (max a b) c) l = max a (List.foldl max (max b c) l)
    rw [max_assoc, ih]

/-- C4: the global time origin handed to the renderer is the minimum of the
start timestamps over compute entries, disk-read entries, disk-write entries
and cache samples combined, and the global maximum is the maximum end
timestamp (sample timestamp for the cache) over all of them; empty optional
inputs contribute nothing. -/
theorem C4_global_bounds (compute dr dw : List TimeEntry) (cache : List CacheSample)
    (ii : Bool) (hne : compute ≠ []) :
    ∃ m M, main_bounds compute dr dw cache ii = some (m, M)
      ∧ (compute.map (·.startNs) ++ dr.map (·.startNs) ++ dw.map (·.startNs)
          ++ cache.map (·.ts)).min? = some m
      ∧ (compute.map (·.endNs) ++ dr.map (·.endNs) ++ dw.map (·.endNs)
          ++ cache.map (·.ts)).max? = some M := by
  match compute, hne with
  | e :: es, _ =>
    refine ⟨_, _, rfl, ?_, ?_⟩
    · show (e.startNs :: (es.map (·.startNs) ++ dr.map (·.startNs) ++ dw.map (·.startNs)
          ++ cache.map (·.ts))).min? = _
      rw [List.min?_cons']
      congr 1
      rw [List.foldl_append, List.foldl_append, List.foldl_append]
      rcases dr with - | ⟨x, xs⟩ <;> rcases dw with - | ⟨y, ys⟩ <;>
        rcases cache with - | ⟨z, zs⟩ <;>
        simp [main_bounds, build_segments, find_bounds, find_cache_bounds,
          List.filterMap_cons, foldl_min_min]
    · show (e.endNs :: (es.map (·.endNs) ++ dr.map (·.endNs) ++ dw.map (·.endNs)
          ++ cache.map (·.ts))).max? = _
      rw [List.max?_cons']
      congr 1
      rw [List.foldl_append, List.foldl_append, List.foldl_append]
      rcases dr with - | ⟨x, xs⟩ <;> rcases dw with - | ⟨y, ys⟩ <;>
        rcases cache with - | ⟨z, zs⟩ <;>
        simp [main_bounds, build_segments, find_bounds, find_cache_bounds,
          List.filterMap_cons, foldl_max_max]

/-- Witness for C4 at a concrete input. -/
theorem C4_global_bounds_witness :
    ∃ m M, main_bounds [⟨0, "A", 100, 200⟩] [⟨1, "r", 50, 120⟩] [] [⟨500, 1, 2⟩] false
        = some (m, M)
      ∧ (([⟨0, "A", 100, 200⟩] : List TimeEntry).map (·.startNs)
          ++ ([⟨1, "r", 50, 120⟩] : List TimeEntry).map (·.startNs)
          ++ ([] : List TimeEntry).map (·.startNs)
          ++ ([⟨500, 1, 2⟩] : List CacheSample).map (·.ts)).min? = some m
      ∧ (([⟨0, "A", 100, 200⟩] : List TimeEntry).map (·.endNs)
          ++ ([⟨1, "r", 50, 120⟩] : List TimeEntry).map (·.endNs)
          ++ ([] : List TimeEntry).map (·.endNs)
          ++ ([⟨500, 1, 2⟩] : List CacheSample).map (·.ts)).max? = some M :=
  C4_global_bounds [⟨0, "A", 100, 200⟩] [⟨1, "r", 50, 120⟩] [] [⟨500, 1, 2⟩] false
    (by decide)

/-! ## CSV loading (ASCII string helpers, `int()`/`float()` parsing, loaders) -/

/-- The ASCII whitespace characters (Python `\s` / `str.strip` over the
ASCII range). -/
def pySpace (c : Char) : Bool :=
  c = ' ' || c = '\t' || c = '\n' || c = '\r' || c = Char.ofNat 11 || c = Char.ofNat 12

/-- ASCII lower-casing, as Python `str.lower` on ASCII text. -/
def lowerChar (c : Char) : Char :=
  if 'A' ≤ c ∧ c ≤ 'Z' then Char.ofNat (c.toNat + 32) else c

/-- `str.lower` (ASCII). -/
def pyLower (s : String) : String := ⟨s.data.map lowerChar⟩

/-- `str.strip` (ASCII whitespace). -/
def pyStrip (s : String) : String :=
  ⟨((s.data.dropWhile pySpace).reverse.dropWhile pySpace).reverse⟩

/-- Numeric value of an ASCII digit. -/
def digitVal (c : Char) : ℕ := c.toNat - 48

/-- Digit run with Python's underscore rule (an underscore must sit between
two digits), accumulating the value; aborts on a malformed run. Used by
`pyInt?` which models `int(str)`. -/
def pyIntDigitsAux (acc : ℕ) : List Char → Option ℕ
  | [] => some acc
  | '_' :: c :: rest =>
    if c.isDigit then pyIntDigitsAux (acc * 10 + digitVal c) rest else none
  | ['_'] => none
  | c :: rest =>
    if c.isDigit then pyIntDigitsAux (acc * 10 + digitVal c) rest else none

/-- Python `int(str)`: optional surrounding whitespace, optional sign, a
digit run with underscores between digits.  (Non-ASCII digits are not
modelled.) -/
def pyInt? (s : String) : Option ℤ :=
  let l := ((s.data.dropWhile pySpace).reverse.dropWhile pySpace).reverse
  match l with
  | '+' :: c :: rest =>
    if c.isDigit then (pyIntDigitsAux (digitVal c) rest).map (fun n => (n : ℤ)) else none
  | '-' :: c :: rest =>
    if c.isDigit then (pyIntDigitsAux (digitVal c) rest).map (fun n => -(n : ℤ)) else none
  | c :: rest =>
    if c.isDigit then (pyIntDigitsAux (digitVal c) rest).map (fun n => (n : ℤ)) else none
  | [] => none

/-- A CSV input file: absent on disk, present but byte-empty
(`csv.DictReader.fieldnames is None`), or a header line plus data rows. -/
inductive CsvFile
  | absent
  | empty
  | table (header : List String) (rows : List (List String))
deriving DecidableEq, Repr

/-- `row[col]` access of a `DictReader` row when `col` is known to be in the
header: `none` models the `None` restval of a row shorter than the header. -/
def rowCell (header row : List String) (col : String) : Option String :=
  (header.indexOf? col).bind (fun i => row[i]?)

/-- `row[col]` access including the `KeyError` case (`col` not a field). -/
def dictRowGet (header row : List String) (col : String) :
    Except String (Option String) :=
  match header.indexOf? col with
  | none => .error ("KeyError: '" ++ col ++ "'")
  | some i => .ok row[i]?

/-- `', '.join(...)`. -/
def commaJoin : List String → String
  | [] => ""
  | [s] => s
  | s :: rest => s ++ ", " ++ commaJoin rest

/-- Lexicographic code-point comparison of character lists, as Python
string `<=`. -/
def lexLeChars : List Char → List Char → Bool
  | [], _ => true
  | _ :: _, [] => false
  | a :: as, b :: bs =>
    if a < b then true
    else if b < a then false
    else lexLeChars as bs

/-- Python string `<=` (lexicographic by code point). -/
def strLe (a b : String) : Prop := lexLeChars a.data b.data = true

instance : DecidableRel strLe := fun a b => by unfold strLe; infer_instance

/-- Python `sorted(...)` on strings. -/
def sortedStrings (l : List String) : List String :=
  l.insertionSort strLe

/-- `int(...)` applied to a cell that may be `None` (short row):
`int(None)` raises `TypeError`, an unparseable string raises `ValueError`.
Callers establish `col ∈ header` beforehand. -/
def cellInt (header row : List String) (col : String) : Except String ℤ :=
  match rowCell header row col with
  | none => .error "TypeError: int() argument must be a string, not NoneType"
  | some s =>
    match pyInt? s with
    | none => .error ("ValueError: invalid literal for int() with base 10: " ++ s)
    | some n => .ok n

/-- One row of the entry loop of `load_entries`: the tuple
`(int(row["ThreadID"]), row["CallerID"], int(row["StartNanos"]), int(row["EndNanos"]))`,
cells evaluated left to right.  A `None` `CallerID` cell is modelled as an
error (in Python the `None` would flow into the tuple and break rendering
later); no claim depends on this corner. -/
def parseEntryRow (header row : List String) : Except String TimeEntry := do
  let tid ← cellInt header row "ThreadID"
  let caller ← match rowCell header row "CallerID" with
    | none => Except.error "TypeError: NoneType caller"
    | some s => Except.ok s
  let s ← cellInt header row "StartNanos"
  let e ← cellInt header row "EndNanos"
  pure ⟨tid, caller, s, e⟩

/-- `load_entries(path, allow_empty)` from `plot_event_log.py`.  Returns the
parsed entries together with the printed warnings; raising is `.error`. -/
def load_entries (path : String) (file : CsvFile) (allow_empty : Bool) :
    Except String (List TimeEntry × List String) :=
  match file with
  | .absent =>
    if allow_empty then .ok ([], ["Warning: " ++ path ++ " not found; skipping."])
    else .error (path ++ " does not exist.")
  | .empty =>
    if allow_empty then .ok ([], ["Warning: " ++ path ++ " has no data; skipping."])
    else .error (path ++ " is empty or missing a header.")
  | .table header rows =>
    let required := ["ThreadID", "CallerID", "StartNanos", "EndNanos"]
    if required.all (fun c => header.contains c) then
      match rows.mapM (fun row => parseEntryRow header row) with
      | .error e => .error e
      | .ok entries =>
        if entries.isEmpty then
          if allow_empty then .ok ([], ["Warning: " ++ path ++ " has no events; skipping."])
          else .error "No data rows found."
        else .ok (entries, [])
    else
      .error ("Missing required columns: " ++
        commaJoin (sortedStrings (required.filter (fun c => !header.contains c))))

/-- One row of the sample loop of `load_cache_samples`. -/
def parseCacheRow (header row : List String) : Except String CacheSample := do
  let ts ← cellInt header row "Timestamp"
  let ev ← cellInt header row "ScheduledEvictionSize"
  let cs ← cellInt header row "CacheSize"
  pure ⟨ts, ev, cs⟩

/-- `load_cache_samples(path, allow_empty)` from `plot_event_log.py`. -/
def load_cache_samples (path : String) (file : CsvFile) (allow_empty : Bool) :
    Except String (List CacheSample × List String) :=
  match file with
  | .absent =>
    if allow_empty then .ok ([], ["Warning: " ++ path ++ " not found; skipping cache plot."])
    else .error (path ++ " does not exist.")
  | .empty =>
    if allow_empty then .ok ([], ["Warning: " ++ path ++ " has no data; skipping cache plot."])
    else .error (path ++ " is empty or missing a header.")
  | .table header rows =>
    let required := ["Timestamp", "ScheduledEvictionSize", "CacheSize"]
    if required.all (fun c => header.contains c) then
      match rows.mapM (fun row => parseCacheRow header row) with
      | .error e => .error e
      | .ok samples =>
        if samples.isEmpty then
          if allow_empty then
            .ok ([], ["Warning: " ++ path ++ " has no events; skipping cache plot."])
          else .error "No cache size data rows found."
        else .ok (samples, [])
    else
      .error ("Missing required columns in cache log: " ++
        commaJoin (sortedStrings (required.filter (fun c => !header.contains c))))

/-- `load_run_settings(path)` from `plot_event_log.py`: never raises; returns
`(soft, hard) = (CacheEvictionLimit, CacheHardLimit)` parsed from the first
data row, or `(None, None)` plus a printed warning on any failure
(`int(None)` → `TypeError` and bad literals → `ValueError` are both caught). -/
def load_run_settings (path : String) (file : CsvFile) :
    (Option ℤ × Option ℤ) × List String :=
  match file with
  | .absent =>
    ((none, none), ["Warning: " ++ path ++ " not found; skipping cache limit lines."])
  | .empty =>
    ((none, none), ["Warning: " ++ path ++ " has no data; skipping cache limit lines."])
  | .table header rows =>
    let required := ["CacheHardLimit", "CacheEvictionLimit"]
    if required.all (fun c => header.contains c) then
      match rows with
      | [] =>
        ((none, none), ["Warning: " ++ path ++ " contained no rows; skipping cache limit lines."])
      | row :: _ =>
        match (rowCell header row "CacheHardLimit").bind pyInt?,
              (rowCell header row "CacheEvictionLimit").bind pyInt? with
        | some hard, some soft => ((some soft, some hard), [])
        | none, _ =>
          ((none, none), ["Warning: invalid cache limits in " ++ path ++ "; skipping cache limit lines."])
        | _, none =>
          ((none, none), ["Warning: invalid cache limits in " ++ path ++ "; skipping cache limit lines."])
    else
      ((none, none), ["Warning: run settings missing required columns: " ++
        commaJoin (sortedStrings (required.filter (fun c => !header.contains c))) ++
        "; skipping cache limit lines."])

/-- The loading phase of `main` in `plot_event_log.py`: the compute log is
loaded with `allow_empty = False` (required), the disk-read, disk-write and
cache logs with `allow_empty = True` (optional). -/
def main_load (computeF drF dwF cacheF : CsvFile) :
    Except String (List TimeEntry × List TimeEntry × List TimeEntry × List CacheSample) := do
  let compute ← load_entries "ComputeEventLog.csv" computeF false
  let dr ← load_entries "DiskReadEventLog.csv" drF true
  let dw ← load_entries "DiskWriteEventLog.csv" dwF true
  let cache ← load_cache_samples "CacheSizeEventLog.csv" cacheF true
  pure (compute.1, dr.1, dw.1, cache.1)

/-- A Python `float` value as far as the scripts observe it: `nan`,
signed infinity, or a finite value (decimal literals modelled exactly in ℚ). -/
inductive PyFloat
  | nan
  | inf (pos : Bool)
  | num (q : ℚ)
deriving DecidableEq, Repr

/-- Greedy digit run with Python's underscore rule for `float(str)` literals:
accumulates (value, number of digits, rest); stops (without consuming) before
anything invalid, in particular before a leading, trailing or doubled
underscore — the leftover then fails the full-consumption check. -/
def digitGroup : List Char → ℕ → ℕ → ℕ × ℕ × List Char
  | [], v, n => (v, n, [])
  | c :: rest, v, n =>
    if c.isDigit then digitGroup rest (v * 10 + digitVal c) (n + 1)
    else if c = '_' ∧ 0 < n then
      match rest with
      | c2 :: rest2 =>
        if c2.isDigit then digitGroup rest2 (v * 10 + digitVal c2) (n + 1)
        else (v, n, c :: c2 :: rest2)
      | [] => (v, n, [c])
    else (v, n, c :: rest)

/-- Optional exponent sign. -/
def expSign : List Char → ℤ × List Char
  | '+' :: r => (1, r)
  | '-' :: r => (-1, r)
  | r => (1, r)

/-- Optional `[eE][+-]?digits` exponent suffix of a `float(str)` literal,
which must consume the whole remainder. -/
def expPart (m : ℚ) : List Char → Option ℚ
  | [] => some m
  | c :: rest =>
    if lowerChar c = 'e' then
      let sr := expSign rest
      let g := digitGroup sr.2 0 0
      if g.2.1 = 0 ∨ g.2.2 ≠ [] then none
      else some (m * (10 : ℚ) ^ (sr.1 * (g.1 : ℤ)))
    else none

/-- The unsigned finite part of a `float(str)` literal:
`digits [. digits] [exp]` with at least one mantissa digit. -/
def pyFloatCore (l : List Char) : Option ℚ :=
  let g := digitGroup l 0 0
  match g.2.2 with
  | '.' :: r2 =>
    let f := digitGroup r2 0 0
    if g.2.1 + f.2.1 = 0 then none
    else expPart ((g.1 : ℚ) + (f.1 : ℚ) / (10 : ℚ) ^ f.2.1) f.2.2
  | _ => if g.2.1 = 0 then none else expPart (g.1 : ℚ) g.2.2

/-- Leading sign of a `float(str)` literal. -/
def floatSign : List Char → Bool × List Char
  | '+' :: r => (false, r)
  | '-' :: r => (true, r)
  | r => (false, r)

/-- Python `float(str)`: surrounding whitespace stripped, optional sign, then
`inf`/`infinity`/`nan` case-insensitively or a decimal literal. -/
def pyFloat? (s : String) : Option PyFloat :=
  let l := ((s.data.dropWhile pySpace).reverse.dropWhile pySpace).reverse
  let sb := floatSign l
  let low := sb.2.map lowerChar
  if low = "inf".data ∨ low = "infinity".data then some (.inf (!sb.1))
  else if low = "nan".data then some .nan
  else
    match pyFloatCore sb.2 with
    | none => none
    | some q => some (.num (if sb.1 then -q else q))

/-- `_as_float` from `visualizer.py`: strip; empty or (case-insensitively)
`"nan"` becomes NaN; otherwise `float(value)`, whose `ValueError` propagates. -/
def _as_float (raw_value : String) : Except String PyFloat :=
  let value := pyStrip raw_value
  if value = "" ∨ pyLower value = "nan" then .ok .nan
  else
    match pyFloat? value with
    | some v => .ok v
    | none => .error ("ValueError: could not convert string to float: " ++ value)

/-- `read_results` from `visualizer.py`.  Note the header check is
`set(fieldnames or []) < expected` — a PROPER-subset test — so a header with
extra columns never triggers the missing-column error even when required
columns are absent; the row loop then hits a `KeyError`.  `mode`/`conf`
cells of short rows are `None` (`Option.none`). -/
def read_results (csv_path : String) (file : CsvFile) :
    Except String (List (Option String × Option String × PyFloat)) :=
  let expected := ["mode", "conf", "rep1"]
  let readRows (header : List String) (rows : List (List String)) :
      Except String (List (Option String × Option String × PyFloat)) :=
    if header.all (fun h => expected.contains h) && !(expected.all (fun c => header.contains c))
    then
      .error (csv_path ++ " missing column(s): " ++
        commaJoin (sortedStrings (expected.filter (fun c => !header.contains c))))
    else
      rows.mapM (fun row => do
        let m ← dictRowGet header row "mode"
        let c ← dictRowGet header row "conf"
        let r ← dictRowGet header row "rep1"
        match r with
        | none => Except.error "AttributeError: 'NoneType' object has no attribute 'strip'"
        | some cell => do
          let v ← _as_float cell
          Except.ok (m, c, v))
  match file with
  | .absent => .error ("FileNotFoundError: " ++ csv_path)
  | .empty => readRows [] []
  | .table header rows => readRows header rows

/-! ## `_memory_conf_bytes`: the two case-insensitive search patterns

`re.search(r"-xmx\s*(\d+(?:\.\d+)?)\s*([kmgtp]?)(?:i?b)?", conf, re.I)` and
`re.search(r"(?<![a-z0-9])(\d+(?:\.\d+)?)\s*([kmgtp]?)(?:i?b)?(?![a-z0-9])", conf, re.I)`
modelled directly as leftmost-match backtracking scanners over the
lower-cased character list (both patterns are wholly case-insensitive, so
matching on the lower-cased text is equivalent; `[a-z0-9]` under
`re.IGNORECASE` is modelled over ASCII). -/

/-- `[a-z0-9]` (after lower-casing). -/
def isAlnumCI (c : Char) : Bool := ('a' ≤ c && c ≤ 'z') || c.isDigit

/-- The trailing negative lookahead `(?![a-z0-9])`. -/
def lookaheadOk : List Char → Bool
  | [] => true
  | c :: _ => !isAlnumCI c

/-- `[kmgtp]`. -/
def isUnitChar (c : Char) : Bool := c = 'k' || c = 'm' || c = 'g' || c = 't' || c = 'p'

/-- The `units` dict of `_memory_conf_bytes`: powers of 1024. -/
def unitVal (c : Char) : ℚ :=
  if c = 'k' then 1024
  else if c = 'm' then 1024 ^ 2
  else if c = 'g' then 1024 ^ 3
  else if c = 't' then 1024 ^ 4
  else 1024 ^ 5

/-- A plain `\d+` run (no underscores in regex digits): value, count, rest. -/
def takeDigits : List Char → ℕ → ℕ → ℕ × ℕ × List Char
  | [], v, n => (v, n, [])
  | c :: rest, v, n =>
    if c.isDigit then takeDigits rest (v * 10 + digitVal c) (n + 1)
    else (v, n, c :: rest)

/-- `(?:i?b)?(?![a-z0-9])`: the greedy alternatives `ib`, `b`, `ε` in
backtracking order, each followed by the lookahead. -/
def ibLookahead (p : List Char) : Bool :=
  match p with
  | 'i' :: 'b' :: r => lookaheadOk r || lookaheadOk p
  | 'b' :: r => lookaheadOk r || lookaheadOk p
  | _ => lookaheadOk p

/-- `([kmgtp]?)(?:i?b)?(?![a-z0-9])` at one `\s*` backtracking position:
greedily try a unit character first, then the empty unit; returns the byte
multiplier of the first alternative whose tail matches. -/
def unitIb (m : List Char) : Option ℚ :=
  match m with
  | c :: r =>
    if isUnitChar c then
      if ibLookahead r then some (unitVal c)
      else if ibLookahead m then some 1
      else none
    else if ibLookahead m then some 1 else none
  | [] => if ibLookahead [] then some 1 else none

/-- `\s*` backtracking for the bare pattern: try consuming `j` whitespace
characters, longest first. -/
def suffixTryFrom (l : List Char) : ℕ → Option ℚ
  | 0 => unitIb l
  | j + 1 =>
    match unitIb (l.drop (j + 1)) with
    | some u => some u
    | none => suffixTryFrom l j

/-- `\s*([kmgtp]?)(?:i?b)?(?![a-z0-9])` after the number of the bare
pattern, in full backtracking order. -/
def bareSuffix (l : List Char) : Option ℚ :=
  suffixTryFrom l (l.takeWhile pySpace).length

/-- The bare pattern anchored at a digit (the caller has checked the
negative lookbehind): greedy `\d+(?:\.\d+)?`, backtracking the optional
fraction when no suffix alternative passes the lookahead.  Returns
`group(1) * units[group(2)]`. -/
def bareNumberMatch (l : List Char) : Option ℚ :=
  let g := takeDigits l 0 0
  if g.2.1 = 0 then none
  else
    match g.2.2 with
    | '.' :: r2 =>
      if (r2.head?.elim false Char.isDigit) then
        let f := takeDigits r2 0 0
        match bareSuffix f.2.2 with
        | some u => some (((g.1 : ℚ) + (f.1 : ℚ) / (10 : ℚ) ^ f.2.1) * u)
        | none =>
          match bareSuffix ('.' :: r2) with
          | some u => some ((g.1 : ℚ) * u)
          | none => none
      else
        match bareSuffix ('.' :: r2) with
        | some u => some ((g.1 : ℚ) * u)
        | none => none
    | r =>
      match bareSuffix r with
      | some u => some ((g.1 : ℚ) * u)
      | none => none

/-- Leftmost search of the bare pattern; `prevAlnum` carries the negative
lookbehind `(?<![a-z0-9])` state. -/
def bareSearch : Bool → List Char → Option ℚ
  | _, [] => none
  | prevAlnum, c :: rest =>
    if !prevAlnum && c.isDigit then
      match bareNumberMatch (c :: rest) with
      | some v => some v
      | none => bareSearch (isAlnumCI c) rest
    else bareSearch (isAlnumCI c) rest

/-- After a literal `-xmx`: `\s*(\d+(?:\.\d+)?)\s*([kmgtp]?)(?:i?b)?` — all
trailing parts optional, so no backtracking can change the groups. -/
def xmxAfter (r : List Char) : Option ℚ :=
  let r1 := r.dropWhile pySpace
  let g := takeDigits r1 0 0
  if g.2.1 = 0 then none
  else
    let qr : ℚ × List Char :=
      match g.2.2 with
      | '.' :: r2 =>
        if (r2.head?.elim false Char.isDigit) then
          let f := takeDigits r2 0 0
          ((g.1 : ℚ) + (f.1 : ℚ) / (10 : ℚ) ^ f.2.1, f.2.2)
        else ((g.1 : ℚ), '.' :: r2)
      | r' => ((g.1 : ℚ), r')
    let r3 := qr.2.dropWhile pySpace
    match r3 with
    | c :: _ => if isUnitChar c then some (qr.1 * unitVal c) else some qr.1
    | [] => some qr.1

/-- Literal `-xmx` prefix test (on lower-cased text). -/
def startsWithXmx : List Char → Bool
  | '-' :: 'x' :: 'm' :: 'x' :: _ => true
  | _ => false

/-- The part after a `-xmx` prefix. -/
def xmxTail : List Char → List Char
  | _ :: _ :: _ :: _ :: r => r
  | l => l

/-- Leftmost search of the `-xmx` pattern. -/
def xmxSearch : List Char → Option ℚ
  | [] => none
  | c :: rest =>
    if startsWithXmx (c :: rest) then
      match xmxAfter (xmxTail (c :: rest)) with
      | some v => some v
      | none => xmxSearch rest
    else xmxSearch rest

/-- `_memory_conf_bytes` from `visualizer.py`: the explicit `-xmx` heap-flag
pattern takes precedence over the bare number-with-suffix pattern; an
unmatched configuration yields `None`. -/
def _memory_conf_bytes (conf : String) : Option ℚ :=
  let l := conf.data.map lowerChar
  match xmxSearch l with
  | some v => some v
  | none => bareSearch false l

/-- The sort key of `sort_jvm_memory_confs`:
`(1, 0.0, idx)` for unparseable configurations, `(0, bytes, idx)` otherwise. -/
def conf_key (item : ℕ × String) : ℕ × ℚ × ℕ :=
  match _memory_conf_bytes item.2 with
  | none => (1, 0, item.1)
  | some v => (0, v, item.1)

/-- Lexicographic comparison of sort keys, as Python's tuple `<=`. -/
def keyLe (a b : ℕ × ℚ × ℕ) : Prop :=
  a.1 < b.1 ∨ (a.1 = b.1 ∧ (a.2.1 < b.2.1 ∨ (a.2.1 = b.2.1 ∧ a.2.2 ≤ b.2.2)))

instance : DecidableRel keyLe := fun a b => by unfold keyLe; infer_instance

/-- The comparison `sorted(indexed, key=conf_key)` sorts by. -/
def confLe (a b : ℕ × String) : Prop := keyLe (conf_key a) (conf_key b)

instance : DecidableRel confLe := fun a b => by unfold confLe; infer_instance

/-- `list(enumerate(confs))` sorted by `conf_key`.  Python's `sorted` is
stable, and since every key carries the distinct original index the order is
the unique one sorted by the key tuples — which the stable
`List.insertionSort` also produces. -/
def rankedConfs (confs : List String) : List (ℕ × String) :=
  (confs.enum).insertionSort confLe

/-- `sort_jvm_memory_confs` from `visualizer.py`. -/
def sort_jvm_memory_confs (confs : List String) : List String :=
  (rankedConfs confs).map (·.2)

/-- The duplicate-checking `lookup` loop of `prepare_series`: an association
list keyed by `(mode, conf)`, raising on a repeated key. -/
def dupCheck : List (String × String × PyFloat) → List ((String × String) × PyFloat) →
    Except String (List ((String × String) × PyFloat))
  | [], lookup => .ok lookup
  | (m, c, v) :: rest, lookup =>
    if (lookup.map (·.1)).contains (m, c) then
      .error ("Duplicate row detected for mode=" ++ m ++ ", conf=" ++ c)
    else dupCheck rest (lookup ++ [((m, c), v)])

/-- `prepare_series` from `visualizer.py`: first-seen modes, sorted
configurations, and per-mode value rows aligned with the configuration list,
`lookup.get((mode, conf), math.nan)` filling missing combinations with NaN. -/
def prepare_series (data : List (String × String × PyFloat)) :
    Except String (List String × List String × List (String × List PyFloat)) := do
  let modes := ordered_unique (data.map (·.1))
  let confs := sort_jvm_memory_confs (ordered_unique (data.map (·.2.1)))
  let lookup ← dupCheck data []
  let series := modes.map (fun mode =>
    (mode, confs.map (fun conf => (lookup.lookup (mode, conf)).getD PyFloat.nan)))
  pure (modes, confs, series)

lemma keyLe_total (a b : ℕ × ℚ × ℕ) : keyLe a b ∨ keyLe b a := by
  unfold keyLe
  rcases lt_trichotomy a.1 b.1 with h | h | h
  · exact Or.inl (Or.inl h)
  · rcases lt_trichotomy a.2.1 b.2.1 with h2 | h2 | h2
    · exact Or.inl (Or.inr ⟨h, Or.inl h2⟩)
    · rcases le_total a.2.2 b.2.2 with h3 | h3
      · exact Or.inl (Or.inr ⟨h, Or.inr ⟨h2, h3⟩⟩)
      · exact Or.inr (Or.inr ⟨h.symm, Or.inr ⟨h2.symm, h3⟩⟩)
    · exact Or.inr (Or.inr ⟨h.symm, Or.inl h2⟩)
  · exact Or.inr (Or.inl h)

lemma keyLe_trans {a b c : ℕ × ℚ × ℕ} (h1 : keyLe a b) (h2 : keyLe b c) : keyLe a c := by
  unfold keyLe at *
  rcases h1 with h1 | ⟨e1, h1⟩
  · rcases h2 with h2 | ⟨e2, -⟩
    · exact Or.inl (h1.trans h2)
    · exact Or.inl (e2 ▸ h1)
  · rcases h2 with h2 | ⟨e2, h2⟩
    · exact Or.inl (e1 ▸ h2)
    · refine Or.inr ⟨e1.trans e2, ?_⟩
      rcases h1 with h1 | ⟨f1, h1⟩
      · rcases h2 with h2 | ⟨f2, -⟩
        · exact Or.inl (h1.trans h2)
        · exact Or.inl (f2 ▸ h1)
      · rcases h2 with h2 | ⟨f2, h2⟩
        · exact Or.inl (f1 ▸ h2)
        · exact Or.inr ⟨f1.trans f2, h1.trans h2⟩

lemma rankedConfs_sorted (confs : List String) :
    (rankedConfs confs).Pairwise confLe := by
  haveI : IsTotal (ℕ × String) confLe := ⟨fun a b => keyLe_total _ _⟩
  haveI : IsTrans (ℕ × String) confLe := ⟨fun _ _ _ => keyLe_trans⟩
  exact List.sorted_insertionSort confLe confs.enum

lemma rankedConfs_perm (confs : List String) :
    (rankedConfs confs).Perm confs.enum :=
  List.perm_insertionSort confLe confs.enum

lemma rankedConfs_pairwise_ne (confs : List String) :
    (rankedConfs confs).Pairwise (fun a b => a.1 ≠ b.1) := by
  have hperm : ((rankedConfs confs).map Prod.fst).Perm (confs.enum.map Prod.fst) :=
    (rankedConfs_perm confs).map Prod.fst
  have hnd : ((rankedConfs confs).map Prod.fst).Nodup := by
    rw [hperm.nodup_iff, List.enum_map_fst]
    exact List.nodup_range _
  exact List.pairwise_map.mp hnd

lemma enum_pairwise_fst_lt (l : List String) :
    l.enum.Pairwise (fun a b => a.1 < b.1) := by
  have := List.pairwise_lt_range l.length
  rw [← List.enum_map_fst l] at this
  exact List.pairwise_map.mp this

/-- C1: `sort_jvm_memory_confs` returns a permutation of its input in which
every configuration parseable by `_memory_conf_bytes` (the `-Xmx` pattern
taking precedence over the bare pattern, suffixes k/m/g/t/p = powers of
1024) precedes every unparseable one, parseable configurations are ordered by
parsed byte magnitude with ties broken by original position, and unparseable
configurations keep their original relative order. -/
theorem C1_sort_jvm_memory_confs (confs : List String) :
    (sort_jvm_memory_confs confs).Perm confs
    ∧ (rankedConfs confs).Pairwise (fun a b =>
        ((_memory_conf_bytes b.2).isSome → (_memory_conf_bytes a.2).isSome)
        ∧ ∀ va vb, _memory_conf_bytes a.2 = some va → _memory_conf_bytes b.2 = some vb →
            va < vb ∨ (va = vb ∧ a.1 < b.1))
    ∧ (sort_jvm_memory_confs confs).filter (fun c => (_memory_conf_bytes c).isNone)
        = confs.filter (fun c => (_memory_conf_bytes c).isNone) := by
  refine ⟨?_, ?_, ?_⟩
  · have h := (rankedConfs_perm confs).map Prod.snd
    rw [List.enum_map_snd] at h
    exact h
  · have h := (rankedConfs_sorted confs).and (rankedConfs_pairwise_ne confs)
    refine h.imp ?_
    rintro a b ⟨hle, hne⟩
    unfold confLe conf_key keyLe at hle
    constructor
    · intro hb
      cases hpa : _memory_conf_bytes a.2 with
      | some v => simp
      | none =>
        cases hpb : _memory_conf_bytes b.2 with
        | none => rw [hpb] at hb; simp at hb
        | some w =>
          rw [hpa, hpb] at hle
          simp only [] at hle
          omega
    · intro va vb hva hvb
      rw [hva, hvb] at hle
      simp only [] at hle
      rcases hle with h | ⟨-, h | ⟨hq, hi⟩⟩
      · omega
      · exact Or.inl h
      · have : a.1 ≠ b.1 := hne
        exact Or.inr ⟨hq, lt_of_le_of_ne hi this⟩
  · have hfmap :
        (sort_jvm_memory_confs confs).filter (fun c => (_memory_conf_bytes c).isNone)
          = ((rankedConfs confs).filter
              (fun p => (_memory_conf_bytes p.2).isNone)).map Prod.snd := by
      unfold sort_jvm_memory_confs
      rw [List.filter_map]
      rfl
    have hfmap2 :
        confs.filter (fun c => (_memory_conf_bytes c).isNone)
          = (confs.enum.filter (fun p => (_memory_conf_bytes p.2).isNone)).map Prod.snd := by
      conv_lhs => rw [← List.enum_map_snd confs]
      rw [List.filter_map]
      rfl
    rw [hfmap, hfmap2]
    congr 1
    have hperm := (rankedConfs_perm confs).filter (fun p => (_memory_conf_bytes p.2).isNone)
    have hs1 : ((rankedConfs confs).filter
        (fun p => (_memory_conf_bytes p.2).isNone)).Pairwise
          (fun a b : ℕ × String => a.1 < b.1) := by
      have h := ((rankedConfs_sorted confs).and (rankedConfs_pairwise_ne confs)).filter
        (fun p => (_memory_conf_bytes p.2).isNone)
      refine h.imp_of_mem ?_
      intro a b ha hb hab
      obtain ⟨hle, hne⟩ := hab
      have hma : (_memory_conf_bytes a.2).isNone := by
        simpa using List.of_mem_filter ha
      have hmb : (_memory_conf_bytes b.2).isNone := by
        simpa using List.of_mem_filter hb
      unfold confLe conf_key keyLe at hle
      rw [Option.isNone_iff_eq_none] at hma hmb
      rw [hma, hmb] at hle
      simp only [] at hle
      have hle2 : a.1 ≤ b.1 := by
        rcases hle with h | ⟨-, h | ⟨-, h⟩⟩
        · omega
        · exact absurd h (lt_irrefl _)
        · exact h
      exact lt_of_le_of_ne hle2 hne
    have hs2 : (confs.enum.filter
        (fun p => (_memory_conf_bytes p.2).isNone)).Pairwise
          (fun a b : ℕ × String => a.1 < b.1) :=
      (enum_pairwise_fst_lt confs).filter _
    exact @List.eq_of_perm_of_sorted (ℕ × String) (fun a b => a.1 < b.1)
      ⟨fun a b h1 h2 => absurd h2 (Nat.lt_asymm h1)⟩ _ _ hperm hs1 hs2

lemma contains_eq_true_of_mem {α} [BEq α] [LawfulBEq α] {l : List α} {a : α}
    (h : a ∈ l) : l.contains a = true := List.elem_iff.mpr h

lemma contains_eq_false_of_not_mem {α} [BEq α] [LawfulBEq α] {l : List α} {a : α}
    (h : a ∉ l) : l.contains a = false := by
  cases hc : l.contains a
  · rfl
  · exact absurd (List.elem_iff.mp hc) h

lemma dupCheck_cons_mem {m c : String} {v : PyFloat}
    {rest : List (String × String × PyFloat)} {acc : List ((String × String) × PyFloat)}
    (h : (m, c) ∈ acc.map (·.1)) :
    dupCheck ((m, c, v) :: rest) acc
      = .error ("Duplicate row detected for mode=" ++ m ++ ", conf=" ++ c) := by
  show (if (acc.map (·.1)).contains (m, c) then _ else _) = _
  rw [contains_eq_true_of_mem h]
  simp

lemma dupCheck_cons_not_mem {m c : String} {v : PyFloat}
    {rest : List (String × String × PyFloat)} {acc : List ((String × String) × PyFloat)}
    (h : (m, c) ∉ acc.map (·.1)) :
    dupCheck ((m, c, v) :: rest) acc = dupCheck rest (acc ++ [((m, c), v)]) := by
  show (if (acc.map (·.1)).contains (m, c) then _ else _) = _
  rw [contains_eq_false_of_not_mem h]
  simp

lemma dupCheck_ok (data : List (String × String × PyFloat)) :
    ∀ acc : List ((String × String) × PyFloat),
      ((acc.map (·.1)) ++ data.map (fun r => (r.1, r.2.1))).Nodup →
      dupCheck data acc = .ok (acc ++ data.map (fun r => ((r.1, r.2.1), r.2.2))) := by
  induction data with
  | nil => intro acc h; simp [dupCheck]
  | cons r rest ih =>
    obtain ⟨m, c, v⟩ := r
    intro acc h
    simp only [List.map_cons] at h
    have hnotmem : (m, c) ∉ acc.map (·.1) := by
      rw [List.nodup_append] at h
      exact fun hmem => h.2.2 hmem (by simp)
    rw [dupCheck_cons_not_mem hnotmem]
    have h' : (((acc ++ [((m, c), v)]).map (·.1))
        ++ rest.map (fun r => (r.1, r.2.1))).Nodup := by
      simpa using h
    rw [ih (acc ++ [((m, c), v)]) h']
    simp

lemma dupCheck_err (data : List (String × String × PyFloat)) :
    ∀ pre : List (String × String × PyFloat),
      (pre.map (fun r => (r.1, r.2.1))).Nodup →
      ¬ (((pre ++ data).map (fun r => (r.1, r.2.1))).Nodup) →
      ∃ m c,
        dupCheck data (pre.map (fun r => ((r.1, r.2.1), r.2.2)))
            = .error ("Duplicate row detected for mode=" ++ m ++ ", conf=" ++ c)
        ∧ 2 ≤ ((pre ++ data).map (fun r => (r.1, r.2.1))).count (m, c) := by
  induction data with
  | nil => intro pre hpre hfull; rw [List.append_nil] at hfull; exact absurd hpre hfull
  | cons r rest ih =>
    obtain ⟨m, c, v⟩ := r
    intro pre hpre hfull
    have hmapmap : (pre.map (fun r => ((r.1, r.2.1), r.2.2))).map (·.1)
        = pre.map (fun r => (r.1, r.2.1)) := by
      rw [List.map_map]; rfl
    by_cases hmem : (m, c) ∈ pre.map (fun r => (r.1, r.2.1))
    · refine ⟨m, c, dupCheck_cons_mem (by rw [hmapmap]; exact hmem), ?_⟩
      rw [List.map_append, List.count_append]
      have h1 : 1 ≤ (pre.map (fun r => (r.1, r.2.1))).count (m, c) :=
        List.count_pos_iff.mpr hmem
      have h2 : 1 ≤ (((m, c, v) :: rest).map (fun r => (r.1, r.2.1))).count (m, c) := by
        simp [List.count_cons]
      omega
    · rw [dupCheck_cons_not_mem (by rw [hmapmap]; exact hmem)]
      have hpre' : ((pre ++ [(m, c, v)]).map (fun r => (r.1, r.2.1))).Nodup := by
        rw [List.map_append, List.nodup_append]
        refine ⟨hpre, by simp, ?_⟩
        intro a ha hb
        simp only [List.map_cons, List.map_nil, List.mem_singleton] at hb
        exact hmem (hb ▸ ha)
      have hfull' :
          ¬ ((((pre ++ [(m, c, v)]) ++ rest).map (fun r => (r.1, r.2.1))).Nodup) := by
        rw [List.append_assoc]
        simpa using hfull
      obtain ⟨m', c', herr, hcount⟩ := ih (pre ++ [(m, c, v)]) hpre' hfull'
      rw [List.map_append] at herr
      refine ⟨m', c', by simpa using herr, ?_⟩
      rw [List.append_assoc] at hcount
      simpa using hcount

lemma lookup_map_mk_of_mem {data : List (String × String × PyFloat)}
    (hnd : (data.map (fun r => (r.1, r.2.1))).Nodup) {m c : String} {v : PyFloat}
    (hmem : (m, c, v) ∈ data) :
    (data.map (fun r => ((r.1, r.2.1), r.2.2))).lookup (m, c) = some v := by
  induction data with
  | nil => simp at hmem
  | cons r rest ih =>
    obtain ⟨m', c', v'⟩ := r
    simp only [List.map_cons, List.nodup_cons] at hnd
    rw [List.map_cons, List.lookup_cons]
    by_cases heq : (m, c) = (m', c')
    · have hbeq : ((m, c) == ((m', c', v').1, (m', c', v').2.1)) = true := by
        simpa using heq
      simp only [hbeq]
      rcases List.mem_cons.mp hmem with h | h
      · obtain ⟨-, -, h3⟩ : m = m' ∧ c = c' ∧ v = v' := by
          simpa [Prod.ext_iff] using h
        exact congrArg some h3.symm
      · exfalso
        have hm : (m, c) ∈ rest.map (fun r => (r.1, r.2.1)) :=
          List.mem_map_of_mem (fun r => (r.1, r.2.1)) h
        exact hnd.1 (heq ▸ hm)
    · have hbeq : ((m, c) == ((m', c', v').1, (m', c', v').2.1)) = false := by
        simpa using heq
      simp only [hbeq]
      rcases List.mem_cons.mp hmem with h | h
      · exact absurd (congrArg (fun r => (r.1, r.2.1)) h) (by simpa using heq)
      · exact ih hnd.2 h

lemma lookup_map_mk_of_not_mem {data : List (String × String × PyFloat)} {m c : String}
    (h : ∀ v, (m, c, v) ∉ data) :
    (data.map (fun r => ((r.1, r.2.1), r.2.2))).lookup (m, c) = none := by
  induction data with
  | nil => rfl
  | cons r rest ih =>
    obtain ⟨m', c', v'⟩ := r
    rw [List.map_cons, List.lookup_cons]
    by_cases heq : (m, c) = (m', c')
    · exfalso
      apply h v'
      rw [show m = m' from congrArg Prod.fst heq,
        show c = c' from congrArg Prod.snd heq]
      exact List.mem_cons_self _ _
    · have hbeq : ((m, c) == ((m', c', v').1, (m', c', v').2.1)) = false := by
        simpa using heq
      simp only [hbeq]
      exact ih (fun v hv => h v (List.mem_cons_of_mem _ hv))

/-- C5: whenever the row sequence repeats a `(mode, conf)` pair,
`prepare_series` raises an error naming both the mode and the conf of a pair
occurring at least twice (the message embeds both values, as the infix facts
at the concrete example show); with no duplicate pair, no error is raised.
The spec example `("gc1","4g",10.0), ("gc1","4g",12.0)` produces exactly
`Duplicate row detected for mode=gc1, conf=4g`. -/
theorem C5_duplicate_detection :
    (∀ data : List (String × String × PyFloat),
        ¬ ((data.map (fun r => (r.1, r.2.1))).Nodup) →
        ∃ m c, 2 ≤ (data.map (fun r => (r.1, r.2.1))).count (m, c)
          ∧ prepare_series data
              = .error ("Duplicate row detected for mode=" ++ m ++ ", conf=" ++ c))
    ∧ (∀ data : List (String × String × PyFloat),
        (data.map (fun r => (r.1, r.2.1))).Nodup → ∃ r, prepare_series data = .ok r)
    ∧ prepare_series [("gc1", "4g", PyFloat.num 10), ("gc1", "4g", PyFloat.num 12)]
        = .error "Duplicate row detected for mode=gc1, conf=4g"
    ∧ ("mode=gc1".data <:+: "Duplicate row detected for mode=gc1, conf=4g".data)
    ∧ ("conf=4g".data <:+: "Duplicate row detected for mode=gc1, conf=4g".data) := by
  refine ⟨?_, ?_, rfl, ?_, ?_⟩
  · intro data hdup
    obtain ⟨m, c, herr, hcount⟩ := dupCheck_err data [] (by simp) (by simpa using hdup)
    simp only [List.map_nil, List.nil_append] at herr hcount
    refine ⟨m, c, hcount, ?_⟩
    unfold prepare_series
    rw [herr]
    rfl
  · intro data hnd
    have hok := dupCheck_ok data [] (by simpa using hnd)
    simp only [List.map_nil, List.nil_append] at hok
    refine ⟨(ordered_unique (data.map (·.1)),
      sort_jvm_memory_confs (ordered_unique (data.map (·.2.1))),
      (ordered_unique (data.map (·.1))).map (fun mode =>
        (mode, (sort_jvm_memory_confs (ordered_unique (data.map (·.2.1)))).map
          (fun conf => ((data.map (fun r => ((r.1, r.2.1), r.2.2))).lookup
            (mode, conf)).getD PyFloat.nan)))), ?_⟩
    unfold prepare_series
    rw [hok]
    rfl
  · exact ⟨"Duplicate row detected for ".data, ", conf=4g".data, by decide⟩
  · exact ⟨"Duplicate row detected for mode=gc1, ".data, "".data, by decide⟩

/-- Witness for C5 at the spec's duplicate example. -/
theorem C5_duplicate_detection_witness :
    ∃ m c,
      2 ≤ (([("gc1", "4g", PyFloat.num 10), ("gc1", "4g", PyFloat.num 12)].map
          (fun r => (r.1, r.2.1))).count (m, c))
      ∧ prepare_series [("gc1", "4g", PyFloat.num 10), ("gc1", "4g", PyFloat.num 12)]
          = .error ("Duplicate row detected for mode=" ++ m ++ ", conf=" ++ c) :=
  C5_duplicate_detection.1 [("gc1", "4g", PyFloat.num 10), ("gc1", "4g", PyFloat.num 12)]
    (by decide)

/-- C8: on duplicate-free rows, `prepare_series` succeeds and yields, for
each mode, a value row aligned index-by-index with the configuration list;
a present `(mode, conf)` combination contributes its row's value and an
absent combination is filled with NaN. -/
theorem C8_prepare_series_nan_fill :
    ∀ data : List (String × String × PyFloat),
      (data.map (fun r => (r.1, r.2.1))).Nodup →
      ∃ modes confs series,
        prepare_series data = .ok (modes, confs, series)
        ∧ series.map Prod.fst = modes
        ∧ ∀ p ∈ series,
            p.2.length = confs.length
            ∧ ∀ (i : ℕ) (c : String), confs[i]? = some c →
                (∀ v, (p.1, c, v) ∈ data → p.2[i]? = some v)
                ∧ ((∀ v, (p.1, c, v) ∉ data) → p.2[i]? = some PyFloat.nan) := by
  intro data hnd
  have hok := dupCheck_ok data [] (by simpa using hnd)
  simp only [List.map_nil, List.nil_append] at hok
  refine ⟨ordered_unique (data.map (·.1)),
    sort_jvm_memory_confs (ordered_unique (data.map (·.2.1))),
    (ordered_unique (data.map (·.1))).map (fun mode =>
      (mode, (sort_jvm_memory_confs (ordered_unique (data.map (·.2.1)))).map
        (fun conf => ((data.map (fun r => ((r.1, r.2.1), r.2.2))).lookup
          (mode, conf)).getD PyFloat.nan))), ?_, ?_, ?_⟩
  · unfold prepare_series
    rw [hok]
    rfl
  · rw [List.map_map]
    exact List.map_id _
  · intro p hp
    obtain ⟨mode, -, rfl⟩ := List.mem_map.mp hp
    refine ⟨by simp, ?_⟩
    intro i c hc
    have hrow : ∀ x : PyFloat,
        ((data.map (fun r => ((r.1, r.2.1), r.2.2))).lookup (mode, c)).getD PyFloat.nan = x →
        ((sort_jvm_memory_confs (ordered_unique (data.map (·.2.1)))).map
            (fun conf =>
              ((data.map (fun r => ((r.1, r.2.1), r.2.2))).lookup (mode, conf)).getD
                PyFloat.nan))[i]? = some x := by
      intro x hx
      rw [List.getElem?_map, hc]
      simp [hx]
    constructor
    · intro v hv
      exact hrow v (by rw [lookup_map_mk_of_mem hnd hv]; rfl)
    · intro hnone
      exact hrow PyFloat.nan (by rw [lookup_map_mk_of_not_mem hnone]; rfl)

/-- Witness for C8 at a small concrete input. -/
theorem C8_prepare_series_nan_fill_witness :
    ∃ modes confs series,
      prepare_series [("gc1", "4g", PyFloat.num 10), ("gc2", "2g", PyFloat.num 7)]
          = .ok (modes, confs, series)
      ∧ series.map Prod.fst = modes
      ∧ ∀ p ∈ series,
          p.2.length = confs.length
          ∧ ∀ (i : ℕ) (c : String), confs[i]? = some c →
              (∀ v, (p.1, c, v) ∈ [("gc1", "4g", PyFloat.num 10), ("gc2", "2g", PyFloat.num 7)]
                → p.2[i]? = some v)
              ∧ ((∀ v, (p.1, c, v)
                    ∉ [("gc1", "4g", PyFloat.num 10), ("gc2", "2g", PyFloat.num 7)])
                  → p.2[i]? = some PyFloat.nan) :=
  C8_prepare_series_nan_fill [("gc1", "4g", PyFloat.num 10), ("gc2", "2g", PyFloat.num 7)]
    (by decide)

/-- C6 (code bug in `read_results`): `load_entries` does fail with a message
naming exactly the sorted absent required columns whatever else the header
holds (first two conjuncts; e.g. a header missing only `EndNanos` yields
`Missing required columns: EndNanos`).  But `read_results` tests
`set(fieldnames) < expected` — a proper-subset test — so a header with an
extra column and a missing required column passes the check and the row loop
crashes with `KeyError: 'rep1'` instead (last conjunct). -/
theorem C6_missing_column_naming :
    (∀ path header rows allow_empty,
        ¬ ((["ThreadID", "CallerID", "StartNanos", "EndNanos"].all
            (fun c => header.contains c)) = true) →
        load_entries path (.table header rows) allow_empty
          = .error ("Missing required columns: " ++ commaJoin (sortedStrings
              (["ThreadID", "CallerID", "StartNanos", "EndNanos"].filter
                (fun c => !header.contains c)))))
    ∧ (∀ header : List String, ∀ c,
        c ∈ sortedStrings (["ThreadID", "CallerID", "StartNanos", "EndNanos"].filter
            (fun c => !header.contains c))
          ↔ (c ∈ ["ThreadID", "CallerID", "StartNanos", "EndNanos"] ∧ c ∉ header))
    ∧ load_entries "p.csv" (.table ["ThreadID", "CallerID", "StartNanos"] []) false
        = .error "Missing required columns: EndNanos"
    ∧ read_results "results.csv" (.table ["mode", "conf", "notes"] [["gc1", "4g", "x"]])
        = .error "KeyError: 'rep1'" := by
  refine ⟨?_, ?_, rfl, rfl⟩
  · intro path header rows allow_empty h
    simp only [load_entries]
    rw [if_neg h]
  · intro header c
    unfold sortedStrings
    rw [(List.perm_insertionSort _ _).mem_iff, List.mem_filter]
    constructor
    · rintro ⟨h1, h2⟩
      refine ⟨h1, fun hmem => ?_⟩
      rw [contains_eq_true_of_mem hmem] at h2
      simp at h2
    · rintro ⟨h1, h2⟩
      exact ⟨h1, by rw [contains_eq_false_of_not_mem h2]; rfl⟩

/-- Witness for C6 applying the general naming statement at a header missing
two columns. -/
theorem C6_missing_column_naming_witness :
    load_entries "q.csv" (.table ["CallerID", "StartNanos"] [["x"]]) true
      = .error ("Missing required columns: " ++ commaJoin (sortedStrings
          (["ThreadID", "CallerID", "StartNanos", "EndNanos"].filter
            (fun c => !(["CallerID", "StartNanos"] : List String).contains c)))) :=
  C6_missing_column_naming.1 "q.csv" ["CallerID", "StartNanos"] [["x"]] true (by decide)

/-- C7 counterexample: a zero-data-row file whose header lacks the required
columns raises the missing-column error even when the load is marked
optional — the column check precedes the empty-rows check — refuting the
claim that an optional zero-row file always degrades to an empty sequence
plus a warning. -/
theorem C7_counterexample :
    load_entries "DiskReadEventLog.csv" (.table ["Foo"] []) true
        = .error "Missing required columns: CallerID, EndNanos, StartNanos, ThreadID"
    ∧ ∀ res, load_entries "DiskReadEventLog.csv" (.table ["Foo"] []) true ≠ .ok res := by
  constructor
  · rfl
  · intro res h
    rw [show load_entries "DiskReadEventLog.csv" (.table ["Foo"] []) true
        = .error "Missing required columns: CallerID, EndNanos, StartNanos, ThreadID"
      from rfl] at h
    exact Except.noConfusion h

/-- C7 (amended): an absent or headerless file raises when required and
degrades to an empty sequence plus a warning when optional; a zero-data-row
file **whose header contains the required columns** does the same; and
`main` loads the compute log as required while the disk-read, disk-write and
cache logs are optional. -/
theorem C7_optional_loading :
    (∀ path, (∃ e, load_entries path .absent false = .error e)
      ∧ (∃ w, load_entries path .absent true = .ok ([], [w])))
    ∧ (∀ path, (∃ e, load_entries path .empty false = .error e)
      ∧ (∃ w, load_entries path .empty true = .ok ([], [w])))
    ∧ (∀ path header,
        ((["ThreadID", "CallerID", "StartNanos", "EndNanos"].all
            (fun c => header.contains c)) = true) →
        (∃ e, load_entries path (.table header []) false = .error e)
        ∧ (∃ w, load_entries path (.table header []) true = .ok ([], [w])))
    ∧ (∀ drF dwF cacheF, ∃ e, main_load .absent drF dwF cacheF = .error e)
    ∧ (∀ computeF compute w,
        load_entries "ComputeEventLog.csv" computeF false = .ok (compute, w) →
        main_load computeF .absent .absent .absent = .ok (compute, [], [], [])) := by
  refine ⟨?_, ?_, ?_, ?_, ?_⟩
  · intro path
    exact ⟨⟨_, rfl⟩, ⟨_, rfl⟩⟩
  · intro path
    exact ⟨⟨_, rfl⟩, ⟨_, rfl⟩⟩
  · intro path header h
    constructor
    · refine ⟨"No data rows found.", ?_⟩
      simp only [load_entries]
      rw [if_pos h]
      rfl
    · refine ⟨"Warning: " ++ path ++ " has no events; skipping.", ?_⟩
      simp only [load_entries]
      rw [if_pos h]
      rfl
  · intro drF dwF cacheF
    exact ⟨_, rfl⟩
  · intro computeF compute w h
    unfold main_load
    rw [h]
    rfl

/-- Witness for C7 at a header containing exactly the required columns. -/
theorem C7_optional_loading_witness :
    (∃ e, load_entries "p.csv"
        (.table ["ThreadID", "CallerID", "StartNanos", "EndNanos"] []) false = .error e)
    ∧ (∃ w, load_entries "p.csv"
        (.table ["ThreadID", "CallerID", "StartNanos", "EndNanos"] []) true
          = .ok ([], [w])) :=
  C7_optional_loading.2.2.1 "p.csv" ["ThreadID", "CallerID", "StartNanos", "EndNanos"]
    (by decide)

/-- C9: `load_run_settings` is total (it is a plain function into pairs —
never an exception): a missing file, a headerless file, a header lacking a
required column, a file with zero data rows, and a first row whose limit
cells do not parse as integers all produce `(None, None)` plus a printed
warning; otherwise it returns `(CacheEvictionLimit, CacheHardLimit)` — soft
limit first — taken from the first data row only. -/
theorem C9_load_run_settings :
    (∀ path, load_run_settings path .absent
        = ((none, none), ["Warning: " ++ path ++ " not found; skipping cache limit lines."]))
    ∧ (∀ path, load_run_settings path .empty
        = ((none, none), ["Warning: " ++ path ++ " has no data; skipping cache limit lines."]))
    ∧ (∀ path header rows,
        ¬ ((["CacheHardLimit", "CacheEvictionLimit"].all (fun c => header.contains c)) = true) →
        load_run_settings path (.table header rows)
          = ((none, none), ["Warning: run settings missing required columns: " ++
              commaJoin (sortedStrings (["CacheHardLimit", "CacheEvictionLimit"].filter
                (fun c => !header.contains c))) ++ "; skipping cache limit lines."]))
    ∧ (∀ path header,
        ((["CacheHardLimit", "CacheEvictionLimit"].all (fun c => header.contains c)) = true) →
        load_run_settings path (.table header [])
          = ((none, none),
             ["Warning: " ++ path ++ " contained no rows; skipping cache limit lines."]))
    ∧ (∀ path header row rest,
        ((["CacheHardLimit", "CacheEvictionLimit"].all (fun c => header.contains c)) = true) →
        ((rowCell header row "CacheHardLimit").bind pyInt? = none
          ∨ (rowCell header row "CacheEvictionLimit").bind pyInt? = none) →
        load_run_settings path (.table header (row :: rest))
          = ((none, none),
             ["Warning: invalid cache limits in " ++ path ++ "; skipping cache limit lines."]))
    ∧ (∀ path header row rest hard soft,
        ((["CacheHardLimit", "CacheEvictionLimit"].all (fun c => header.contains c)) = true) →
        (rowCell header row "CacheHardLimit").bind pyInt? = some hard →
        (rowCell header row "CacheEvictionLimit").bind pyInt? = some soft →
        load_run_settings path (.table header (row :: rest))
          = ((some soft, some hard), [])) := by
  refine ⟨fun path => rfl, fun path => rfl, ?_, ?_, ?_, ?_⟩
  · intro path header rows h
    simp only [load_run_settings]
    rw [if_neg h]
  · intro path header h
    simp only [load_run_settings]
    rw [if_pos h]
  · intro path header row rest h hcase
    simp only [load_run_settings]
    rw [if_pos h]
    cases hhard : (rowCell header row "CacheHardLimit").bind pyInt? with
    | none =>
      cases (rowCell header row "CacheEvictionLimit").bind pyInt? with
      | none => rfl
      | some soft => rfl
    | some hard =>
      cases hsoft : (rowCell header row "CacheEvictionLimit").bind pyInt? with
      | none => rfl
      | some soft =>
        rw [hhard, hsoft] at hcase
        rcases hcase with h' | h' <;> exact Option.noConfusion h'
  · intro path header row rest hard soft h hhard hsoft
    simp only [load_run_settings]
    rw [if_pos h, hhard, hsoft]

/-- Witness for C9: a well-formed run-settings file returns
`(soft, hard) = (60, 100)`. -/
theorem C9_load_run_settings_witness :
    load_run_settings "RunSettings.csv"
        (.table ["CacheHardLimit", "CacheEvictionLimit"] [["100", "60"], ["9", "9"]])
      = ((some 60, some 100), []) :=
  C9_load_run_settings.2.2.2.2.2 "RunSettings.csv" ["CacheHardLimit", "CacheEvictionLimit"]
    ["100", "60"] [["9", "9"]] 100 60 (by decide) (by decide) (by decide)

lemma as_float_guard_false {s : String} (h1 : pyStrip s ≠ "")
    (h2 : pyLower (pyStrip s) ≠ "nan") :
    _as_float s = match pyFloat? (pyStrip s) with
      | some v => .ok v
      | none => .error ("ValueError: could not convert string to float: " ++ pyStrip s) := by
  simp only [_as_float]
  rw [if_neg (not_or.mpr ⟨h1, h2⟩)]

lemma as_float_error {s : String} (h1 : pyStrip s ≠ "")
    (h2 : pyLower (pyStrip s) ≠ "nan") (h3 : pyFloat? (pyStrip s) = none) :
    _as_float s = .error ("ValueError: could not convert string to float: " ++ pyStrip s) := by
  rw [as_float_guard_false h1 h2, h3]

/-- C10: the rep1-cell conversion `_as_float` maps an empty,
whitespace-only, or (case-insensitively, after stripping) `"nan"` cell to
NaN; a stripped cell that `float()` parses yields its value; any other cell
raises a `ValueError`, which propagates out of `read_results`. -/
theorem C10_rep1_parsing :
    (∀ s, pyStrip s = "" → _as_float s = .ok .nan)
    ∧ (∀ s, pyLower (pyStrip s) = "nan" → _as_float s = .ok .nan)
    ∧ (∀ s v, pyStrip s ≠ "" → pyLower (pyStrip s) ≠ "nan" →
        pyFloat? (pyStrip s) = some v → _as_float s = .ok v)
    ∧ (∀ s, pyStrip s ≠ "" → pyLower (pyStrip s) ≠ "nan" →
        pyFloat? (pyStrip s) = none →
        _as_float s = .error ("ValueError: could not convert string to float: " ++ pyStrip s))
    ∧ (∀ mrow crow s rest, pyStrip s ≠ "" → pyLower (pyStrip s) ≠ "nan" →
        pyFloat? (pyStrip s) = none →
        read_results "results.csv" (.table ["mode", "conf", "rep1"] ([mrow, crow, s] :: rest))
          = .error ("ValueError: could not convert string to float: " ++ pyStrip s)) := by
  refine ⟨?_, ?_, ?_, ?_, ?_⟩
  · intro s h
    simp only [_as_float]
    rw [if_pos (Or.inl h)]
  · intro s h
    simp only [_as_float]
    rw [if_pos (Or.inr h)]
  · intro s v h1 h2 h3
    rw [as_float_guard_false h1 h2, h3]
  · intro s h1 h2 h3
    exact as_float_error h1 h2 h3
  · intro mrow crow s rest h1 h2 h3
    have hred : read_results "results.csv"
        (.table ["mode", "conf", "rep1"] ([mrow, crow, s] :: rest))
        = ((_as_float s).bind
            (fun v => Except.ok ((some mrow : Option String), (some crow : Option String), v))).bind
          (fun b => List.mapM.loop (fun row => do
              let m ← dictRowGet ["mode", "conf", "rep1"] row "mode"
              let c ← dictRowGet ["mode", "conf", "rep1"] row "conf"
              let r ← dictRowGet ["mode", "conf", "rep1"] row "rep1"
              match r with
              | none => Except.error "AttributeError: 'NoneType' object has no attribute 'strip'"
              | some cell => do
                let v ← _as_float cell
                Except.ok (m, c, v)) rest (b :: [])) := rfl
    rw [hred, as_float_error h1 h2 h3]
    rfl

/-- Witness for C10 applying the error-propagation conjunct at the cell
`"xx"`. -/
theorem C10_rep1_parsing_witness :
    read_results "results.csv" (.table ["mode", "conf", "rep1"] [["gc1", "4g", "xx"]])
      = .error ("ValueError: could not convert string to float: " ++ pyStrip "xx") :=
  C10_rep1_parsing.2.2.2.2 "gc1" "4g" "xx" [] (by decide) (by decide) (by decide)
